import Mathlib

/-!
Verification of the `windowd` CLI's lifecycle coordinator against its
natural-language specification.

The definitions below are shallow embeddings of the functions in
`bin/cli.ts` and `src/lib.ts`.  IO effects (spawning processes, socket
events, `rmSync`, timers) are abstracted by explicit inputs describing
their outcomes; machine-level details otherwise follow the source.
-/

namespace Windowd

/-! ### Process handles and `stopVite` (bin/cli.ts) -/

/-- The observable state of a spawned child process: `killed` is Node's
`ChildProcess.killed` flag (a signal was sent via `kill()`), `exited`
records whether the OS process has already terminated. -/
structure ProcState where
  killed : Bool
  exited : Bool
deriving DecidableEq, Repr

/-- Node's `ChildProcess.kill('SIGTERM')`: delivering a signal to a live
process succeeds and sets the `killed` flag; on a process that has
already exited the call can throw (modelled as `Except.error`), which is
the situation the source's `try/catch` guards against. -/
def procKill (p : ProcState) : Except String ProcState :=
  if p.exited then Except.error "ESRCH" else Except.ok { p with killed := true }

/-- Shallow embedding of `stopVite` (bin/cli.ts): return immediately when
`vite.killed` is set, otherwise `kill('SIGTERM')` inside `try/catch`,
swallowing any error.  An `Except.ok` result means the function returned
normally (it never rethrows). -/
def stopVite (p : ProcState) : Except String ProcState :=
  if p.killed then Except.ok p
  else
    match procKill p with
    | Except.ok q => Except.ok q
    | Except.error _ => Except.ok p

/-! ### `cleanupTempDir` and the `openWindow` finally block (bin/cli.ts) -/

/-- Outcome of one `rmSync(dir, { recursive: true, force: true })` call:
success, or an error carrying its Node `code` string. -/
inductive RmOutcome where
  | ok : RmOutcome
  | err (code : String) : RmOutcome
deriving DecidableEq, Repr

/-- Shallow embedding of `cleanupTempDir` (bin/cli.ts): `rmSync` runs in a
`try/catch`; on error, the codes `EBUSY`/`EPERM`/`ENOTEMPTY` return
silently, every other code prints one warning line.  The function's
total return type records that no error ever escapes it.  The returned
list is the list of warning lines printed. -/
def cleanupTempDir (rm : RmOutcome) (label : String) : List String :=
  match rm with
  | RmOutcome.ok => []
  | RmOutcome.err code =>
      if code = "EBUSY" ∨ code = "EPERM" ∨ code = "ENOTEMPTY" then []
      else ["  warning: failed to remove " ++ label ++ " temp dir: " ++ code]

/-- Settlement of the open-window phase: fulfilled, or rejected with an
error message. -/
inductive PhaseOutcome where
  | ok : PhaseOutcome
  | err (msg : String) : PhaseOutcome
deriving DecidableEq, Repr

/-- The `finally` block of `openWindow` (bin/cli.ts): after the awaited
race settles with `race`, `cleanupTempDir` runs on the host bundle dir
and the profile dir.  Since `cleanupTempDir` cannot throw, the phase
outcome passes through unchanged; the second component collects the
warning lines the teardown printed. -/
def openWindowFinally (race : PhaseOutcome) (rmHost rmProfile : RmOutcome) :
    PhaseOutcome × List String :=
  (race, cleanupTempDir rmHost "host" ++ cleanupTempDir rmProfile "profile")

/-! ### `waitForExit` and the shutdown race (bin/cli.ts) -/

/-- Payload of a Node child process `exit` event: the exit code (`null`
when the process was killed by a signal) and the signal name. -/
structure ExitEvent where
  code : Option Int
  signal : Option String
deriving DecidableEq, Repr

/-- `code ?? 'null'` as interpolated into the error message. -/
def showExitCode : Option Int → String
  | none => "null"
  | some c => toString c

/-- `signal ?? 'null'` as interpolated into the error message. -/
def showExitSignal : Option String → String
  | none => "null"
  | some s => s

/-- Shallow embedding of `waitForExit` (bin/cli.ts): the promise fulfills
only when the subprocess exits with code 0 and otherwise rejects with a
message embedding the exit code and signal. -/
def waitForExit (nm : String) (ev : ExitEvent) : PhaseOutcome :=
  if ev.code = some 0 then PhaseOutcome.ok
  else
    PhaseOutcome.err
      (nm ++ " exited with code " ++ showExitCode ev.code ++ " signal " ++ showExitSignal ev.signal)

/-- `Promise.race [p1, p2]` over two settlements tagged with the
event-loop time at which each settles: the earlier settlement wins,
and on the (un-schedulable) tie the promise listed first wins, matching
the subscription order of `Promise.race`. -/
def promiseRace2 (o1 o2 : PhaseOutcome) (t1 t2 : Nat) : PhaseOutcome :=
  if t1 ≤ t2 then o1 else o2

/-- The awaited race of the open-window phase (bin/cli.ts):
`Promise.race([waitForExit(nw, 'nw'), closeSignal.closed])`.  The
close-signal promise only ever fulfills, so its settlement is
`PhaseOutcome.ok`; `tExit`/`tClose` are the times at which the
subprocess exit settles `waitForExit` and the signal resolves `closed`. -/
def openWindowRace (ev : ExitEvent) (tExit tClose : Nat) : PhaseOutcome :=
  promiseRace2 (waitForExit "nw" ev) PhaseOutcome.ok tExit tClose

/-! ### `createCloseSignalServer` (bin/cli.ts) -/

/-- State of the close-signal channel: whether the `closed` promise has
been resolved, and how many times `resolve()` was actually invoked on
the underlying promise. -/
structure SignalState where
  resolved : Bool
  resolveCount : Nat
deriving DecidableEq, Repr

/-- The channel's state right after `createCloseSignalServer` binds its
listener. -/
def initialSignalState : SignalState := { resolved := false, resolveCount := 0 }

/-- `resolveClosed` (bin/cli.ts): resolve the `closed` promise only when
the `resolved` guard is still clear. -/
def resolveClosed (st : SignalState) : SignalState :=
  if st.resolved then st
  else { resolved := true, resolveCount := st.resolveCount + 1 }

/-- The exact characters the server writes back on every data-bearing
connection (bin/cli.ts).  (In the source the `\\r\\n` sequences are
escaped backslashes inside a single-quoted string, so the bytes written
are literally backslash-r backslash-n.) -/
def noContentResponse : String :=
  "HTTP/1.1 204 No Content\\r\\nContent-Length: 0\\r\\nConnection: close\\r\\n\\r\\n"

/-- One inbound connection to the close-signal server: if the connection
delivers data, the `once('data')` handler runs `resolveClosed` and then
writes the minimal no-content response; a connection that never delivers
data triggers nothing. -/
def handleConnection (st : SignalState) (delivers : Bool) : SignalState × Option String :=
  if delivers then (resolveClosed st, some noContentResponse) else (st, none)

/-- Process a whole sequence of inbound connections (`true` = the
connection delivered data), threading the channel state and collecting
the per-connection responses. -/
def runConnections (st : SignalState) : List Bool → SignalState × List (Option String)
  | [] => (st, [])
  | d :: ds =>
      let p := handleConnection st d
      let q := runConnections p.1 ds
      (q.1, p.2 :: q.2)

/-! ### JavaScript objects and values -/

/-- JSON-ish JavaScript values as they occur in the NW manifest and the
generated Vite config.  `ref n` stands for a value opaque to the
coordinator (a function, a plugin object, …), distinguished only by
identity. -/
inductive JsValue where
  | str (s : String)
  | num (n : Int)
  | bool (b : Bool)
  | null
  | arr (elems : List JsValue)
  | obj (fields : List (String × JsValue))
  | ref (tag : Nat)

/-- A JavaScript object, observed through property lookup. -/
def JsObj : Type := String → Option JsValue

/-- The empty object `{}`. -/
def emptyObj : JsObj := fun _ => none

/-- Property assignment `m[k] = v`. -/
def objSet (m : JsObj) (k : String) (v : JsValue) : JsObj :=
  fun q => if q = k then some v else m q

/-- Object spread `{ ...m, ...entries }`: the entries are written into
`m` in order, later entries shadowing earlier ones. -/
def jsSpread (m : JsObj) (entries : List (String × JsValue)) : JsObj :=
  entries.foldl (fun acc kv => objSet acc kv.1 kv.2) m

/-- Property lookup on an object literal given by its field list
(`last` binding wins, matching evaluation of duplicate keys). -/
def jsLookup (entries : List (String × JsValue)) (k : String) : Option JsValue :=
  jsSpread emptyObj entries k

/-! ### `applyUserManifestOverrides` and `createNwHostApp` (bin/cli.ts) -/

/-- The fixed protected-key set of `applyUserManifestOverrides`. -/
def protectedKeys : List String := ["main", "node-main", "name"]

/-- The warning line printed for an attempted protected-key override. -/
def protectedKeyWarning (key : String) : String :=
  "  ignoring windowd config override for protected manifest key: " ++ key

/-- Shallow embedding of `applyUserManifestOverrides` (bin/cli.ts): when
a user manifest is present, its entries are walked in `Object.entries`
order; protected keys are dropped with a warning, every other entry is
assigned into the manifest.  Returns the mutated manifest and the
warning lines printed. -/
def applyUserManifestOverrides (manifest : JsObj)
    (userManifest : Option (List (String × JsValue))) : JsObj × List String :=
  match userManifest with
  | none => (manifest, [])
  | some entries =>
      entries.foldl
        (fun st kv =>
          if kv.1 ∈ protectedKeys then (st.1, st.2 ++ [protectedKeyWarning kv.1])
          else (objSet st.1 kv.1 kv.2, st.2))
        (manifest, [])

/-- The manifest object `createNwHostApp` builds before applying user
overrides (bin/cli.ts): the coordinator's own `name`, `main` (the start
URL), `single-instance`, `node-main`, `node-remote` and `window` fields,
plus `chromium-args` when any chromium arguments were collected. -/
def baseManifest (startUrl : String) (nodeRemote windowConfig : JsValue)
    (chromiumArgs : Option String) : JsObj :=
  let m0 : JsObj := fun k =>
    if k = "name" then some (JsValue.str "windowd-host")
    else if k = "main" then some (JsValue.str startUrl)
    else if k = "single-instance" then some (JsValue.bool false)
    else if k = "node-main" then some (JsValue.str "windowd-node-main.js")
    else if k = "node-remote" then some nodeRemote
    else if k = "window" then some windowConfig
    else none
  match chromiumArgs with
  | some s => objSet m0 "chromium-args" (JsValue.str s)
  | none => m0

/-- The NW manifest as of the `applyUserManifestOverrides` call in
`createNwHostApp` (bin/cli.ts), together with the warnings emitted. -/
def nwHostManifest (startUrl : String) (nodeRemote windowConfig : JsValue)
    (chromiumArgs : Option String)
    (userManifest : Option (List (String × JsValue))) : JsObj × List String :=
  applyUserManifestOverrides (baseManifest startUrl nodeRemote windowConfig chromiumArgs)
    userManifest

/-! ### `waitForServer` (bin/cli.ts) -/

/-- Outcome of a single HTTP probe: a response with a status code, or
the request's `error` event (connection refused, reset, or the request
destroyed by its own 1000 ms `setTimeout`). -/
inductive Probe where
  | status (code : Nat)
  | connError
deriving DecidableEq, Repr

/-- A probe outcome that makes `waitForServer` resolve: a response whose
status is below 500. -/
def probeReady : Probe → Bool
  | Probe.status c => decide (c < 500)
  | Probe.connError => false

/-- How one `waitForServer` run settles.  The failure constructors carry
exactly the data interpolated into the rejection messages — the attempt
budget in `Vite not ready after 40 attempts`, the URL in
`Vite at http://… never responded`. -/
inductive WaitResult where
  | ready (attempt : Nat)
  | errNotReady (maxAttempts : Nat)
  | errNeverResponded (url : String)
deriving DecidableEq, Repr

/-- Observable trace of one `waitForServer` run: how it settled, how
many probes it issued, and the wall-clock milliseconds elapsed. -/
structure WaitTrace where
  result : WaitResult
  attemptsMade : Nat
  elapsedMs : Nat
deriving DecidableEq, Repr

/-- The retry loop of `waitForServer` (bin/cli.ts).  `probe k` is the
outcome of the k-th attempt (1-indexed) and `durMs k` the wall-clock
duration of that probe, which `req.setTimeout(1000, () => req.destroy())`
caps at 1000 ms; each retry adds the 150 ms of `setTimeout(attempt, 150)`.
The `fuel` argument only makes the recursion structural: the loop itself
terminates because `attempts` strictly increases up to `maxAttempts`,
and every run starts with `fuel = maxAttempts` so fuel never runs out
first. -/
def waitForServerAux (probe : Nat → Probe) (durMs : Nat → Nat) (url : String)
    (maxAttempts : Nat) : Nat → Nat → Nat → WaitTrace
  | attempts, elapsed, 0 =>
      { result := WaitResult.errNotReady maxAttempts, attemptsMade := attempts,
        elapsedMs := elapsed }
  | attempts, elapsed, fuel + 1 =>
      let a := attempts + 1
      let e := elapsed + durMs a
      match probe a with
      | Probe.status c =>
          if c < 500 then { result := WaitResult.ready a, attemptsMade := a, elapsedMs := e }
          else if a < maxAttempts then
            waitForServerAux probe durMs url maxAttempts a (e + 150) fuel
          else
            { result := WaitResult.errNotReady maxAttempts, attemptsMade := a, elapsedMs := e }
      | Probe.connError =>
          if a < maxAttempts then
            waitForServerAux probe durMs url maxAttempts a (e + 150) fuel
          else
            { result := WaitResult.errNeverResponded url, attemptsMade := a, elapsedMs := e }

/-- `waitForServer(url)` with its default budget of 40 attempts. -/
def waitForServer (probe : Nat → Probe) (durMs : Nat → Nat) (url : String) : WaitTrace :=
  waitForServerAux probe durMs url 40 0 0 40

/-! ### `parseArgs` (src/lib.ts) -/

/-- A JavaScript number restricted to what `parseInt(_, 10)` produces:
`none` models `NaN`. -/
abbrev JsNumber := Option Int

/-- Longest leading run of decimal digits. -/
def takeDigits : List Char → List Char
  | [] => []
  | c :: cs => if c.isDigit then c :: takeDigits cs else []

/-- Value of a digit run. -/
def digitsToNat (ds : List Char) : Nat :=
  ds.foldl (fun acc c => acc * 10 + (c.toNat - 48)) 0

/-- JavaScript `parseInt(s, 10)`: skip leading whitespace, take an
optional sign and then the longest leading digit run; `NaN` (`none`)
when no digit follows. -/
def jsParseInt (s : String) : JsNumber :=
  let cs := s.toList.dropWhile (fun c => c == ' ' || c == '\t' || c == '\n' || c == '\r')
  let signRest : Int × List Char :=
    match cs with
    | '-' :: t => (-1, t)
    | '+' :: t => (1, t)
    | t => (1, t)
  let ds := takeDigits signRest.2
  if ds.isEmpty then none else some (signRest.1 * (digitsToNat ds : Int))

/-- The `result: Partial<Args>` object the `parseArgs` loop fills in:
every field starts out `undefined` (outer `none`). -/
structure PartialArgs where
  width : Option JsNumber
  height : Option JsNumber
  title : Option String
  debug : Option Bool
  init : Option Bool
  version : Option Bool
  help : Option Bool
  capture : Option String
  artifacts : Option String
deriving DecidableEq, Repr

/-- All fields `undefined`. -/
def emptyPartialArgs : PartialArgs :=
  { width := none, height := none, title := none, debug := none, init := none,
    version := none, help := none, capture := none, artifacts := none }

/-- The scan loop of `parseArgs` (src/lib.ts), one token per iteration.
A value-taking flag consumes the following token only when that token is
truthy (`argv[i + 1]` must be a non-empty string); otherwise the flag
matches no branch and the scan moves on by one token, exactly as in the
source. -/
def parseLoop : List String → PartialArgs → PartialArgs
  | [], r => r
  | a :: rest, r =>
    if a = "--version" ∨ a = "-v" then parseLoop rest { r with version := some true }
    else if a = "--help" ∨ a = "-h" then parseLoop rest { r with help := some true }
    else if a = "--debug" ∨ a = "-d" then parseLoop rest { r with debug := some true }
    else if a = "--init" ∨ a = "-i" then parseLoop rest { r with init := some true }
    else if a = "--width" ∨ a = "-W" then
      match hr : rest with
      | v :: rest2 =>
          if v ≠ "" then parseLoop rest2 { r with width := some (jsParseInt v) }
          else parseLoop rest r
      | [] => parseLoop rest r
    else if a = "--height" ∨ a = "-H" then
      match hr : rest with
      | v :: rest2 =>
          if v ≠ "" then parseLoop rest2 { r with height := some (jsParseInt v) }
          else parseLoop rest r
      | [] => parseLoop rest r
    else if a = "--title" ∨ a = "-t" then
      match hr : rest with
      | v :: rest2 =>
          if v ≠ "" then parseLoop rest2 { r with title := some v }
          else parseLoop rest r
      | [] => parseLoop rest r
    else if a = "--capture" then
      match hr : rest with
      | v :: rest2 =>
          if v ≠ "" then parseLoop rest2 { r with capture := some v }
          else parseLoop rest r
      | [] => parseLoop rest r
    else if a = "--artifacts" then
      match hr : rest with
      | v :: rest2 =>
          if v ≠ "" then parseLoop rest2 { r with artifacts := some v }
          else parseLoop rest r
      | [] => parseLoop rest r
    else parseLoop rest r
termination_by l r => l.length
decreasing_by
  all_goals
    first
      | (subst hr; simp only [List.length_cons]; omega)
      | (simp only [List.length_cons]; omega)

/-- The resolved `Args` record `parseArgs` returns: `?? defaults` for
geometry and booleans (nullish coalescing: an `undefined` field takes
the default but a `NaN` number passes through). -/
structure Args where
  width : JsNumber
  height : JsNumber
  title : Option String
  debug : Bool
  init : Bool
  version : Bool
  help : Bool
  capture : Option String
  artifacts : Option String
deriving DecidableEq, Repr

/-- Shallow embedding of `parseArgs` (src/lib.ts). -/
def parseArgs (argv : List String) : Args :=
  let r := parseLoop argv emptyPartialArgs
  { width := r.width.getD (some 1280)
    height := r.height.getD (some 800)
    title := r.title
    debug := r.debug.getD false
    init := r.init.getD false
    version := r.version.getD false
    help := r.help.getD false
    capture := r.capture
    artifacts := r.artifacts }

/-- The four geometry flags. -/
def geomFlag (a : String) : Bool :=
  a == "--width" || a == "-W" || a == "--height" || a == "-H"

/-- "No value follows `--width`/`--height`" — at every occurrence of a
geometry flag in the vector the following token is absent or the empty
string, so the source's `argv[i + 1]` truthiness guard fails. -/
def noGeomValue : List String → Bool
  | [] => true
  | a :: rest =>
      (if geomFlag a then
        (match rest with
         | [] => true
         | v :: _ => v == "")
       else true)
      && noGeomValue rest

/-! ### `getTitle` (src/lib.ts) and title resolution (bin/cli.ts) -/

/-- The fields of a parsed `package.json` that `getTitle` inspects
(`pkg.windowd?.title`, `pkg.displayName`, `pkg.name`); `none` when the
field is absent. -/
structure PkgJson where
  windowdTitle : Option String
  displayName : Option String
  name : Option String
deriving DecidableEq, Repr

/-- JavaScript truthiness of an optional string field: absent and empty
strings are falsy. -/
def jsTruthy (o : Option String) : Option String :=
  o.bind fun s => if s = "" then none else some s

/-- Case-insensitive literal match of `pat` at the head of `hay`,
returning the remainder on success. -/
def matchCI : List Char → List Char → Option (List Char)
  | [], rest => some rest
  | _ :: _, [] => none
  | p :: ps, c :: cs => if p.toLower = c.toLower then matchCI ps cs else none

/-- What `.` matches in a JavaScript regex without the `s` flag: any
character except a line terminator. -/
def isDotChar (c : Char) : Bool :=
  !(c == '\n' || c == '\r' || c == ' ' || c == ' ')

/-- The non-greedy `(.*?)<\/title>` part of the title regex: starting at
`cs`, capture the shortest run of dot-characters up to a
case-insensitive `</title>`; fail at a line terminator or end of input. -/
def scanClose (cs : List Char) : Option (List Char) :=
  match cs with
  | [] => none
  | c :: rest =>
      if (matchCI "</title>".toList cs).isSome then some []
      else if isDotChar c then (scanClose rest).map (fun t => c :: t) else none

/-- Leftmost-first search of `/<title>(.*?)<\/title>/i` over the
document, returning the first capture group of the first match. -/
def findTitleMatch : List Char → Option (List Char)
  | [] => none
  | c :: cs =>
      match matchCI "<title>".toList (c :: cs) with
      | some rest =>
          match scanClose rest with
          | some content => some content
          | none => findTitleMatch cs
      | none => findTitleMatch cs

/-- The second half of `getTitle` (src/lib.ts): extract the `<title>`
capture from `index.html` when it is readable and the capture is truthy,
else fall back to the directory basename. -/
def htmlOrBase (indexHtml : Option String) (base : String) : String :=
  match indexHtml with
  | none => base
  | some h =>
      match findTitleMatch h.toList with
      | some content => if content.isEmpty then base else String.mk content
      | none => base

/-- Shallow embedding of `getTitle` (src/lib.ts).  `pkg` is the parsed
`package.json` (`none` when the file is missing or unparsable),
`indexHtml` the contents of `index.html` (`none` when unreadable),
`base` the directory basename.  The source's `if (x) return x` checks
use JavaScript truthiness, so empty-string fields fall through. -/
def getTitle (pkg : Option PkgJson) (indexHtml : Option String) (base : String) : String :=
  match pkg with
  | some p =>
      match jsTruthy p.windowdTitle with
      | some t => t
      | none =>
          match jsTruthy p.displayName with
          | some t => t
          | none =>
              match jsTruthy p.name with
              | some t => t
              | none => htmlOrBase indexHtml base
  | none => htmlOrBase indexHtml base

/-- `args.title ?? getTitle(cwd)` in `main` (bin/cli.ts): the `--title`
flag value wins whenever present. -/
def resolvedTitle (flagTitle : Option String) (pkg : Option PkgJson)
    (indexHtml : Option String) (base : String) : String :=
  flagTitle.getD (getTitle pkg indexHtml base)

/-- A concrete `index.html` document whose title element is `Hello`. -/
def helloHtml : String :=
  "<!DOCTYPE html><html><head><title>Hello</title></head><body></body></html>"

/-! ### `hasTypeScriptSource` (src/lib.ts) -/

/-- A directory-tree entry as `readdirSync(dir, { withFileTypes: true })`
reports it: a subdirectory (whose `readable` flag is false when reading
it would throw), a plain file, or an entry that is neither a directory
nor a file (symlink, socket, …). -/
inductive FsNode where
  | dir (nm : String) (readable : Bool) (children : List FsNode)
  | file (nm : String)
  | special (nm : String)
deriving Repr

/-- `suffix.toList.isSuffixOf s.toList` computes `s.endsWith(suffix)`
character-by-character. -/
def strEndsWith (s sfx : String) : Bool :=
  sfx.toList.isSuffixOf s.toList

/-- The file-name test of the scan loop: ends in `.ts` or `.tsx` but not
in `.d.ts`. -/
def isTsSourceName (nm : String) : Bool :=
  (strEndsWith nm ".ts" || strEndsWith nm ".tsx") && !strEndsWith nm ".d.ts"

mutual

/-- Shallow embedding of `hasTypeScriptSource` (src/lib.ts): cut off
beyond depth 5, yield `false` when the directory cannot be read, and
otherwise scan the entries in order. -/
def hasTypeScriptSource : FsNode → Nat → Bool
  | FsNode.dir _ readable children, depth =>
      if 5 < depth then false
      else if readable then scanEntries children depth
      else false
  | FsNode.file _, _ => false
  | FsNode.special _, _ => false
termination_by node _ => sizeOf node

/-- The `for (const entry of entries)` body of `hasTypeScriptSource`:
skip `node_modules`/`.git` directories, recurse into other directories
at depth+1, accept TypeScript-source file names, skip everything else;
`||` renders the loop's early `return true`. -/
def scanEntries : List FsNode → Nat → Bool
  | [], _ => false
  | FsNode.dir nm r ch :: rest, depth =>
      if nm = "node_modules" ∨ nm = ".git" then scanEntries rest depth
      else hasTypeScriptSource (FsNode.dir nm r ch) (depth + 1) || scanEntries rest depth
  | FsNode.file nm :: rest, depth =>
      if isTsSourceName nm then true else scanEntries rest depth
  | FsNode.special _ :: rest, depth => scanEntries rest depth
termination_by entries _ => sizeOf entries

end

/-- Specification-side reachability, written independently of the scan:
within the traversal bounds — depth capped at 5, descending only into
readable directories whose name is neither `node_modules` nor `.git` — a
file whose name passes the TypeScript-source test is present. -/
inductive ReachableTsFile : FsNode → Nat → Prop where
  | here {dirName : String} {children : List FsNode} {depth : Nat} {fileName : String} :
      depth ≤ 5 →
      FsNode.file fileName ∈ children →
      isTsSourceName fileName = true →
      ReachableTsFile (FsNode.dir dirName true children) depth
  | deeper {dirName : String} {children : List FsNode} {depth : Nat}
      {nm : String} {r : Bool} {ch : List FsNode} :
      depth ≤ 5 →
      FsNode.dir nm r ch ∈ children →
      nm ≠ "node_modules" → nm ≠ ".git" →
      ReachableTsFile (FsNode.dir nm r ch) (depth + 1) →
      ReachableTsFile (FsNode.dir dirName true children) depth

/-! ### `createAugmentedViteConfig` (bin/cli.ts)

The generated `vite.config.mjs` evaluates, at Vite startup, to the object
literal `{ cacheDir, ...userConfig, plugins, resolve, server }`; the
definitions below embed that evaluation. -/

/-- Spreading / member access on a value that should be an object: only
object values contribute fields (`undefined`, `null` and primitives
contribute none, matching `?? {}` and spread-of-primitive). -/
def asObjFields : Option JsValue → List (String × JsValue)
  | some (JsValue.obj fs) => fs
  | _ => []

/-- The `Array.isArray` guard: the element list when the value is an
array, `none` otherwise. -/
def asArrElems : Option JsValue → Option (List JsValue)
  | some (JsValue.arr xs) => some xs
  | _ => none

/-- `SameValueZero`, the equality a JavaScript `Set` deduplicates with:
primitives compare by value, arrays/objects by identity (two distinct
literals are never equal; `ref` values compare by tag). -/
def jsSameValueZero : JsValue → JsValue → Bool
  | JsValue.str a, JsValue.str b => a == b
  | JsValue.num a, JsValue.num b => a == b
  | JsValue.bool a, JsValue.bool b => a == b
  | JsValue.null, JsValue.null => true
  | JsValue.ref a, JsValue.ref b => a == b
  | _, _ => false

/-- Worker for `[...new Set(xs)]`: keep the first occurrence of each
element under `SameValueZero`. -/
def dedupAux (seen : List JsValue) : List JsValue → List JsValue
  | [] => []
  | x :: rest =>
      if seen.any (fun y => jsSameValueZero y x) then dedupAux seen rest
      else x :: dedupAux (x :: seen) rest

/-- `[...new Set(xs)]`. -/
def jsSetDedup (xs : List JsValue) : List JsValue := dedupAux [] xs

/-- The inputs `createAugmentedViteConfig` interpolates into the
generated config: the project dir and its parent (the `defaultFsAllow`
entries), the synthesized per-project cache dir in the OS temp dir, the
fallback aliases for dependencies the project lacks, the react-plugin
auto-injection flag, and the user config object (its default export,
`{}` when the project has no Vite config). -/
structure AugmentedConfigInputs where
  projectDir : String
  parentDir : String
  viteCacheDir : String
  fallbackAliases : List (String × String)
  shouldInjectReactPlugin : Bool
  userConfig : List (String × JsValue)

/-- `basePlugins`: the node-builtins plugin (`ref 0`), plus the react
plugin (`ref 1`) when auto-injected. -/
def basePlugins (inp : AugmentedConfigInputs) : List JsValue :=
  [JsValue.ref 0] ++ (if inp.shouldInjectReactPlugin then [JsValue.ref 1] else [])

/-- `userConfig.server ?? {}`. -/
def userServerFields (inp : AugmentedConfigInputs) : List (String × JsValue) :=
  asObjFields (jsLookup inp.userConfig "server")

/-- `userServer.fs ?? {}`. -/
def userFsFields (inp : AugmentedConfigInputs) : List (String × JsValue) :=
  asObjFields (jsLookup (userServerFields inp) "fs")

/-- `Array.isArray(userFs.allow) ? userFs.allow : []`. -/
def userAllowList (inp : AugmentedConfigInputs) : List JsValue :=
  (asArrElems (jsLookup (userFsFields inp) "allow")).getD []

/-- `defaultFsAllow = [projectDir, path.resolve(projectDir, "..")]`. -/
def defaultFsAllow (inp : AugmentedConfigInputs) : List JsValue :=
  [JsValue.str inp.projectDir, JsValue.str inp.parentDir]

/-- `allow = [...new Set([...defaultFsAllow, ...userAllow])]`. -/
def allowList (inp : AugmentedConfigInputs) : List JsValue :=
  jsSetDedup (defaultFsAllow inp ++ userAllowList inp)

/-- `userConfig.resolve ?? {}`. -/
def userResolveFields (inp : AugmentedConfigInputs) : List (String × JsValue) :=
  asObjFields (jsLookup inp.userConfig "resolve")

/-- `userResolve.alias`. -/
def userAliasVal (inp : AugmentedConfigInputs) : Option JsValue :=
  jsLookup (userResolveFields inp) "alias"

/-- The fallback aliases as object fields. -/
def fallbackAliasFields (inp : AugmentedConfigInputs) : List (String × JsValue) :=
  inp.fallbackAliases.map (fun fr => (fr.1, JsValue.str fr.2))

/-- `mergedAlias`: array form prepends `{find, replacement}` objects for
the fallback aliases; object form spreads the fallback record first and
the user record second. -/
def mergedAlias (inp : AugmentedConfigInputs) : JsValue :=
  match asArrElems (userAliasVal inp) with
  | some xs =>
      JsValue.arr
        ((inp.fallbackAliases.map fun fr =>
            JsValue.obj [("find", JsValue.str fr.1), ("replacement", JsValue.str fr.2)])
          ++ xs)
  | none => JsValue.obj (fallbackAliasFields inp ++ asObjFields (userAliasVal inp))

/-- `plugins = Array.isArray(userConfig.plugins) ? [...basePlugins,
...userConfig.plugins] : basePlugins`. -/
def pluginsList (inp : AugmentedConfigInputs) : List JsValue :=
  match asArrElems (jsLookup inp.userConfig "plugins") with
  | some ps => basePlugins inp ++ ps
  | none => basePlugins inp

/-- The default export of the generated `vite.config.mjs`: the object
literal writes `cacheDir` first, then spreads the user config over it,
then writes the computed `plugins`, `resolve` and `server` keys. -/
def augmentedViteConfig (inp : AugmentedConfigInputs) : JsObj :=
  jsSpread
    (jsSpread (objSet emptyObj "cacheDir" (JsValue.str inp.viteCacheDir)) inp.userConfig)
    [("plugins", JsValue.arr (pluginsList inp)),
     ("resolve", JsValue.obj (userResolveFields inp ++ [("alias", mergedAlias inp)])),
     ("server", JsValue.obj (userServerFields inp
        ++ [("fs", JsValue.obj (userFsFields inp
              ++ [("allow", JsValue.arr (allowList inp))]))]))]

/-- A user Vite config that sets its own `cacheDir`, for the
counterexample below. -/
def cacheCexInputs : AugmentedConfigInputs :=
  { projectDir := "/proj", parentDir := "/",
    viteCacheDir := "/tmp/windowd-vite-cache/ab12cd34",
    fallbackAliases := [], shouldInjectReactPlugin := false,
    userConfig := [("cacheDir", JsValue.str "/proj/.vite-custom")] }

/-! ## Theorems -/

/-- Helper: the override fold never changes the manifest at a protected
key. -/
theorem applyOverrides_foldl_protected (entries : List (String × JsValue))
    (st : JsObj × List String) (k : String) (hk : k ∈ protectedKeys) :
    (entries.foldl
        (fun st kv =>
          if kv.1 ∈ protectedKeys then (st.1, st.2 ++ [protectedKeyWarning kv.1])
          else (objSet st.1 kv.1 kv.2, st.2))
        st).1 k = st.1 k := by
  induction entries generalizing st with
  | nil => rfl
  | cons kv rest ih =>
      by_cases hp : kv.1 ∈ protectedKeys
      · simpa [hp] using ih (st.1, st.2 ++ [protectedKeyWarning kv.1])
      · have hne : k ≠ kv.1 := fun h => hp (h ▸ hk)
        rw [List.foldl_cons, if_neg hp, ih (objSet st.1 kv.1 kv.2, st.2)]
        simp [objSet, hne]

/-- Helper: the warnings the override fold appends are exactly one line
per protected-key entry, in order. -/
theorem applyOverrides_foldl_warnings (entries : List (String × JsValue))
    (st : JsObj × List String) :
    (entries.foldl
        (fun st kv =>
          if kv.1 ∈ protectedKeys then (st.1, st.2 ++ [protectedKeyWarning kv.1])
          else (objSet st.1 kv.1 kv.2, st.2))
        st).2
      = st.2 ++ (entries.filter (fun kv => kv.1 ∈ protectedKeys)).map
          (fun kv => protectedKeyWarning kv.1) := by
  induction entries generalizing st with
  | nil => simp
  | cons kv rest ih =>
      by_cases hp : kv.1 ∈ protectedKeys
      · simp [hp, ih]
      · simp [hp, ih]

/-- Helper: keys that never occur in the entry list are untouched by the
override fold. -/
theorem applyOverrides_foldl_absent (entries : List (String × JsValue))
    (st : JsObj × List String) (k : String) (hk : k ∉ entries.map Prod.fst) :
    (entries.foldl
        (fun st kv =>
          if kv.1 ∈ protectedKeys then (st.1, st.2 ++ [protectedKeyWarning kv.1])
          else (objSet st.1 kv.1 kv.2, st.2))
        st).1 k = st.1 k := by
  induction entries generalizing st with
  | nil => rfl
  | cons kv rest ih =>
      have hk1 : k ≠ kv.1 := fun h => hk (by simp [h])
      have hk2 : k ∉ rest.map Prod.fst := fun h => hk (by simp [h])
      by_cases hp : kv.1 ∈ protectedKeys
      · simpa [hp] using ih (st.1, st.2 ++ [protectedKeyWarning kv.1]) hk2
      · rw [List.foldl_cons, if_neg hp, ih (objSet st.1 kv.1 kv.2, st.2) hk2]
        simp [objSet, hk1]

/-- Helper: a non-protected entry of a duplicate-free override object
ends up verbatim in the folded manifest. -/
theorem applyOverrides_foldl_user_value (entries : List (String × JsValue))
    (st : JsObj × List String) (k : String) (v : JsValue)
    (hnd : (entries.map Prod.fst).Nodup) (hmem : (k, v) ∈ entries)
    (hk : k ∉ protectedKeys) :
    (entries.foldl
        (fun st kv =>
          if kv.1 ∈ protectedKeys then (st.1, st.2 ++ [protectedKeyWarning kv.1])
          else (objSet st.1 kv.1 kv.2, st.2))
        st).1 k = some v := by
  induction entries generalizing st with
  | nil => cases hmem
  | cons kv rest ih =>
      rcases List.mem_cons.mp hmem with hEq | hRest
      · have hkv1 : kv.1 = k := by rw [← hEq]
        have hnotin : k ∉ rest.map Prod.fst := by
          have := (List.nodup_cons.mp hnd).1
          simpa [hkv1] using this
        have habs := applyOverrides_foldl_absent rest
          (objSet st.1 kv.1 kv.2, st.2) k hnotin
        have hp : kv.1 ∉ protectedKeys := by simpa [hkv1] using hk
        rw [List.foldl_cons, if_neg hp, habs]
        simp [objSet, hkv1, ← hEq]
      · have hnd2 : (rest.map Prod.fst).Nodup := (List.nodup_cons.mp hnd).2
        by_cases hp : kv.1 ∈ protectedKeys
        · simpa [hp] using ih _ hnd2 hRest
        · simpa [hp] using ih _ hnd2 hRest

/-- C1: for every duplicate-free user manifest override object, the
manifest produced at the `applyUserManifestOverrides` call of
`createNwHostApp` keeps the coordinator's own values for the protected
keys `name`, `main` and `node-main`, emits exactly one warning per
attempted protected-key override (naming the key), and maps every
non-protected key of the override object to the user's value. -/
theorem nwHostManifest_protected (startUrl : String)
    (nodeRemote windowConfig : JsValue) (chromiumArgs : Option String)
    (user : List (String × JsValue))
    (hnd : (user.map Prod.fst).Nodup) :
    (nwHostManifest startUrl nodeRemote windowConfig chromiumArgs (some user)).1 "name"
        = some (JsValue.str "windowd-host")
      ∧ (nwHostManifest startUrl nodeRemote windowConfig chromiumArgs (some user)).1 "main"
          = some (JsValue.str startUrl)
      ∧ (nwHostManifest startUrl nodeRemote windowConfig chromiumArgs (some user)).1 "node-main"
          = some (JsValue.str "windowd-node-main.js")
      ∧ (nwHostManifest startUrl nodeRemote windowConfig chromiumArgs (some user)).2
          = (user.filter (fun kv => kv.1 ∈ protectedKeys)).map
              (fun kv => protectedKeyWarning kv.1)
      ∧ (∀ kv ∈ user, kv.1 ∉ protectedKeys →
          (nwHostManifest startUrl nodeRemote windowConfig chromiumArgs (some user)).1 kv.1
            = some kv.2) := by
  have hbase : ∀ k ∈ protectedKeys,
      (nwHostManifest startUrl nodeRemote windowConfig chromiumArgs (some user)).1 k
        = baseManifest startUrl nodeRemote windowConfig chromiumArgs k := by
    intro k hk
    exact applyOverrides_foldl_protected user _ k hk
  refine ⟨?_, ?_, ?_, ?_, ?_⟩
  · rw [hbase "name" (by simp [protectedKeys])]
    cases chromiumArgs <;> simp [baseManifest, objSet]
  · rw [hbase "main" (by simp [protectedKeys])]
    cases chromiumArgs <;> simp [baseManifest, objSet]
  · rw [hbase "node-main" (by simp [protectedKeys])]
    cases chromiumArgs <;> simp [baseManifest, objSet]
  · simpa using applyOverrides_foldl_warnings user _
  · intro kv hmem hk
    exact applyOverrides_foldl_user_value user _ kv.1 kv.2 hnd (by simpa using hmem) hk

/-- Witness for `nwHostManifest_protected`: a concrete override object
that tries to replace `main` and `name` and adds a `description`. -/
theorem nwHostManifest_protected_witness :
    (nwHostManifest "http://127.0.0.1:4000/?windowThisProjectDir=%2Fproj"
        (JsValue.arr [JsValue.str "<all_urls>"]) (JsValue.obj []) none
        (some [("main", JsValue.str "evil.html"), ("description", JsValue.str "mine"),
               ("name", JsValue.str "evil")])).1 "name"
        = some (JsValue.str "windowd-host")
      ∧ (nwHostManifest "http://127.0.0.1:4000/?windowThisProjectDir=%2Fproj"
          (JsValue.arr [JsValue.str "<all_urls>"]) (JsValue.obj []) none
          (some [("main", JsValue.str "evil.html"), ("description", JsValue.str "mine"),
                 ("name", JsValue.str "evil")])).1 "main"
          = some (JsValue.str "http://127.0.0.1:4000/?windowThisProjectDir=%2Fproj")
      ∧ (nwHostManifest "http://127.0.0.1:4000/?windowThisProjectDir=%2Fproj"
          (JsValue.arr [JsValue.str "<all_urls>"]) (JsValue.obj []) none
          (some [("main", JsValue.str "evil.html"), ("description", JsValue.str "mine"),
                 ("name", JsValue.str "evil")])).1 "node-main"
          = some (JsValue.str "windowd-node-main.js")
      ∧ (nwHostManifest "http://127.0.0.1:4000/?windowThisProjectDir=%2Fproj"
          (JsValue.arr [JsValue.str "<all_urls>"]) (JsValue.obj []) none
          (some [("main", JsValue.str "evil.html"), ("description", JsValue.str "mine"),
                 ("name", JsValue.str "evil")])).2
          = [protectedKeyWarning "main", protectedKeyWarning "name"]
      ∧ (∀ kv ∈ [("main", JsValue.str "evil.html"), ("description", JsValue.str "mine"),
                 ("name", JsValue.str "evil")], kv.1 ∉ protectedKeys →
          (nwHostManifest "http://127.0.0.1:4000/?windowThisProjectDir=%2Fproj"
            (JsValue.arr [JsValue.str "<all_urls>"]) (JsValue.obj []) none
            (some [("main", JsValue.str "evil.html"), ("description", JsValue.str "mine"),
                   ("name", JsValue.str "evil")])).1 kv.1 = some kv.2) := by
  have h := nwHostManifest_protected "http://127.0.0.1:4000/?windowThisProjectDir=%2Fproj"
    (JsValue.arr [JsValue.str "<all_urls>"]) (JsValue.obj []) none
    [("main", JsValue.str "evil.html"), ("description", JsValue.str "mine"),
     ("name", JsValue.str "evil")]
    (by simp [protectedKeys])
  refine ⟨h.1, h.2.1, h.2.2.1, ?_, h.2.2.2.2⟩
  · rw [h.2.2.2.1]
    rfl

/-- Helper: a channel whose promise is already resolved never changes
state again, no matter how many further connections arrive. -/
theorem runConnections_resolved_fixed (ds : List Bool) (st : SignalState)
    (h : st.resolved = true) : (runConnections st ds).1 = st := by
  induction ds generalizing st with
  | nil => rfl
  | cons d ds ih =>
      cases d with
      | false => simpa [runConnections, handleConnection] using ih st h
      | true => simpa [runConnections, handleConnection, resolveClosed, h] using ih st h

/-- Helper: every data-bearing connection is answered with the no-content
response, independently of the channel state. -/
theorem runConnections_responses (ds : List Bool) (st : SignalState) :
    (runConnections st ds).2 =
      ds.map (fun d => if d then some noContentResponse else none) := by
  induction ds generalizing st with
  | nil => rfl
  | cons d ds ih =>
      cases d <;> simp [runConnections, handleConnection, ih]

/-- C2: in the open-window phase, if the shutdown-signal channel's
completion promise resolves strictly before the shell subprocess's exit
event settles, the phase resolves successfully, regardless of the exit
code or signal the subprocess produces. -/
theorem openWindowRace_shutdown_first (ev : ExitEvent) (tExit tClose : Nat)
    (h : tClose < tExit) : openWindowRace ev tExit tClose = PhaseOutcome.ok := by
  have hn : ¬ tExit ≤ tClose := Nat.not_le.mpr h
  simp [openWindowRace, promiseRace2, hn]

/-- Witness for `openWindowRace_shutdown_first` at a concrete non-zero
exit event settling after the close signal. -/
theorem openWindowRace_shutdown_first_witness :
    openWindowRace { code := some 1, signal := none } 7 3 = PhaseOutcome.ok :=
  openWindowRace_shutdown_first { code := some 1, signal := none } 7 3 (by decide)

/-- C3: for every sequence of inbound connections to the close-signal
server, the completion promise is resolved exactly once as soon as some
connection delivers data (and never otherwise), and every data-bearing
connection — first or later — is answered with the same minimal
no-content response, later ones causing no further state transition. -/
theorem closeSignal_first_signal_wins (ds : List Bool) :
    (runConnections initialSignalState ds).1.resolveCount
        = (if ds.any id then 1 else 0)
      ∧ (runConnections initialSignalState ds).1.resolved = ds.any id
      ∧ (runConnections initialSignalState ds).2
          = ds.map (fun d => if d then some noContentResponse else none) := by
  refine ⟨?_, ?_, runConnections_responses ds initialSignalState⟩ <;>
  · induction ds with
    | nil => rfl
    | cons d ds ih =>
        cases d with
        | false =>
            simpa [runConnections, handleConnection, initialSignalState] using ih
        | true =>
            have hfix :
                (runConnections { resolved := true, resolveCount := 1 } ds).1
                  = { resolved := true, resolveCount := 1 } :=
              runConnections_resolved_fixed ds _ rfl
            simp [runConnections, handleConnection, initialSignalState, resolveClosed, hfix]

/-- C6: the dev-server stop routine is total and idempotent: it always
returns normally (never throws), a second call leaves the state it
produced unchanged, and an already-exited subprocess is passed through
as success rather than an error. -/
theorem stopVite_idempotent (p : ProcState) :
    ∃ q, stopVite p = Except.ok q
      ∧ stopVite q = Except.ok q
      ∧ (p.exited = true → stopVite p = Except.ok p) := by
  rcases p with ⟨k, e⟩
  cases k <;> cases e <;>
    first
      | exact ⟨_, rfl, rfl, fun _ => rfl⟩
      | exact ⟨{ killed := true, exited := false }, rfl, rfl, fun h => by cases h⟩

/-- Witness for `stopVite_idempotent` on a subprocess that already
exited without ever being signalled. -/
theorem stopVite_idempotent_witness :
    ∃ q, stopVite { killed := false, exited := true } = Except.ok q
      ∧ stopVite q = Except.ok q
      ∧ (ProcState.exited { killed := false, exited := true } = true →
          stopVite { killed := false, exited := true }
            = Except.ok { killed := false, exited := true }) :=
  stopVite_idempotent { killed := false, exited := true }

/-- C4 counterexample: a dev server that accepts each probe connection
and then hangs makes every probe last its full 1000 ms request timeout,
so the run rejects only after 40·1000 ms of probing plus 39·150 ms of
retry delays = 45 850 ms — far above the claimed ~6–8 s bound (taken
here as 8000 ms). -/
theorem waitForServer_elapsed_cex :
    waitForServer (fun _ => Probe.connError) (fun _ => 1000) "http://127.0.0.1:5173"
        = { result := WaitResult.errNeverResponded "http://127.0.0.1:5173",
            attemptsMade := 40, elapsedMs := 45850 }
      ∧ ¬ (45850 ≤ 8000) := by
  exact ⟨by decide, by decide⟩

/-- Helper: when no probe ever reports a status below 500, the retry
loop runs its remaining fuel down to the attempt budget and rejects,
with the elapsed time bounded by 1150 ms per remaining attempt. -/
theorem waitForServerAux_allfail (probe : Nat → Probe) (durMs : Nat → Nat)
    (url : String) (hdur : ∀ k, durMs k ≤ 1000)
    (hfail : ∀ k, probeReady (probe k) = false) :
    ∀ fuel attempts elapsed, attempts + fuel = 40 → 1 ≤ fuel →
      ((waitForServerAux probe durMs url 40 attempts elapsed fuel).result
          = WaitResult.errNotReady 40
        ∨ (waitForServerAux probe durMs url 40 attempts elapsed fuel).result
          = WaitResult.errNeverResponded url)
      ∧ (waitForServerAux probe durMs url 40 attempts elapsed fuel).attemptsMade = 40
      ∧ (waitForServerAux probe durMs url 40 attempts elapsed fuel).elapsedMs
          ≤ elapsed + fuel * 1150 := by
  intro fuel
  induction fuel with
  | zero => intro attempts elapsed _ h1; omega
  | succ f ih =>
      intro attempts elapsed hsum _
      have hd := hdur (attempts + 1)
      cases hpa : probe (attempts + 1) with
      | status c =>
          have hc : ¬ c < 500 := by
            have := hfail (attempts + 1)
            rw [hpa] at this
            simpa [probeReady] using this
          by_cases hlt : attempts + 1 < 40
          · have hf1 : 1 ≤ f := by omega
            have := ih (attempts + 1) (elapsed + durMs (attempts + 1) + 150) (by omega) hf1
            simp only [waitForServerAux, hpa, if_neg hc, if_pos hlt]
            exact ⟨this.1, this.2.1, by omega⟩
          · simp only [waitForServerAux, hpa, if_neg hc, if_neg hlt]
            refine ⟨Or.inl trivial, by omega, by omega⟩
      | connError =>
          by_cases hlt : attempts + 1 < 40
          · have hf1 : 1 ≤ f := by omega
            have := ih (attempts + 1) (elapsed + durMs (attempts + 1) + 150) (by omega) hf1
            simp only [waitForServerAux, hpa, if_pos hlt]
            exact ⟨this.1, this.2.1, by omega⟩
          · simp only [waitForServerAux, hpa, if_neg hlt]
            refine ⟨Or.inr trivial, by omega, by omega⟩

/-- Helper: the loop resolves with `ready j` as soon as the first probe
with a sub-500 status is the j-th one. -/
theorem waitForServerAux_first_ready (probe : Nat → Probe) (durMs : Nat → Nat)
    (url : String) :
    ∀ fuel attempts elapsed j, attempts + fuel = 40 → attempts < j → j ≤ 40 →
      (∀ k, attempts < k → k < j → probeReady (probe k) = false) →
      probeReady (probe j) = true →
      (waitForServerAux probe durMs url 40 attempts elapsed fuel).result
        = WaitResult.ready j := by
  intro fuel
  induction fuel with
  | zero => intro attempts elapsed j hsum hlt hle _ _; omega
  | succ f ih =>
      intro attempts elapsed j hsum hlt hle hmid hj
      by_cases haj : attempts + 1 = j
      · cases hpa : probe (attempts + 1) with
        | status c =>
            have hc : c < 500 := by
              rw [haj] at hpa
              have := hj
              rw [hpa] at this
              simpa [probeReady] using this
            simp only [waitForServerAux, hpa, if_pos hc]
            simpa using haj
        | connError =>
            rw [haj] at hpa
            rw [hpa] at hj
            simp [probeReady] at hj
      · have hastep : attempts + 1 < j := by omega
        have hfk : probeReady (probe (attempts + 1)) = false :=
          hmid (attempts + 1) (by omega) hastep
        have hlt40 : attempts + 1 < 40 := by omega
        cases hpa : probe (attempts + 1) with
        | status c =>
            have hc : ¬ c < 500 := by
              rw [hpa] at hfk
              simpa [probeReady] using hfk
            simp only [waitForServerAux, hpa, if_neg hc, if_pos hlt40]
            exact ih (attempts + 1) _ j (by omega) hastep hle
              (fun k hk1 hk2 => hmid k (by omega) hk2) hj
        | connError =>
            simp only [waitForServerAux, hpa, if_pos hlt40]
            exact ih (attempts + 1) _ j (by omega) hastep hle
              (fun k hk1 hk2 => hmid k (by omega) hk2) hj

/-- C4 (amended): the readiness probe resolves on the first response
with status below 500, treats every earlier connection error or timeout
as not-ready-yet, and against an endpoint that never produces a status
below 500 it rejects after exactly 40 attempts with an error naming the
URL or the attempt budget; the total wall-clock wait is bounded above by
40·(1000 ms probe timeout + 150 ms retry delay) = 46 s — not the claimed
~6–8 s — and in particular the probe never hangs indefinitely. -/
theorem waitForServer_bounded (probe : Nat → Probe) (durMs : Nat → Nat)
    (url : String) (hdur : ∀ k, durMs k ≤ 1000) :
    (∀ j, 1 ≤ j → j ≤ 40 →
        (∀ k, 1 ≤ k → k < j → probeReady (probe k) = false) →
        probeReady (probe j) = true →
        (waitForServer probe durMs url).result = WaitResult.ready j)
      ∧ ((∀ k, probeReady (probe k) = false) →
          ((waitForServer probe durMs url).result = WaitResult.errNotReady 40
            ∨ (waitForServer probe durMs url).result = WaitResult.errNeverResponded url)
          ∧ (waitForServer probe durMs url).attemptsMade = 40
          ∧ (waitForServer probe durMs url).elapsedMs ≤ 40 * 1150) := by
  constructor
  · intro j hj1 hj40 hmid hj
    exact waitForServerAux_first_ready probe durMs url 40 0 0 j (by omega) (by omega) hj40
      (fun k hk1 hk2 => hmid k (by omega) hk2) hj
  · intro hfail
    have := waitForServerAux_allfail probe durMs url hdur hfail 40 0 0 (by omega) (by omega)
    exact ⟨this.1, this.2.1, by simpa [waitForServer] using this.2.2⟩

/-- Witness for `waitForServer_bounded`: an endpoint that never answers
(constant connection errors, 200 ms each) exhausts exactly the 40-probe
budget within the 46 s bound, and an endpoint answering 200 immediately
resolves on the first attempt. -/
theorem waitForServer_bounded_witness :
    (((waitForServer (fun _ => Probe.connError) (fun _ => 200) "http://127.0.0.1:9999").result
          = WaitResult.errNotReady 40
        ∨ (waitForServer (fun _ => Probe.connError) (fun _ => 200) "http://127.0.0.1:9999").result
          = WaitResult.errNeverResponded "http://127.0.0.1:9999")
      ∧ (waitForServer (fun _ => Probe.connError) (fun _ => 200) "http://127.0.0.1:9999").attemptsMade
          = 40
      ∧ (waitForServer (fun _ => Probe.connError) (fun _ => 200) "http://127.0.0.1:9999").elapsedMs
          ≤ 40 * 1150)
      ∧ (waitForServer (fun _ => Probe.status 200) (fun _ => 10) "http://127.0.0.1:9999").result
          = WaitResult.ready 1 := by
  constructor
  · exact (waitForServer_bounded (fun _ => Probe.connError) (fun _ => 200)
      "http://127.0.0.1:9999" (fun k => by norm_num)).2 (fun k => rfl)
  · exact (waitForServer_bounded (fun _ => Probe.status 200) (fun _ => 10)
      "http://127.0.0.1:9999" (fun k => by norm_num)).1 1 (by norm_num) (by norm_num)
      (fun k hk1 hk2 => absurd (Nat.lt_of_le_of_lt hk1 hk2) (by norm_num)) rfl

/-- Helper: spreading an entry list over an object looks up the entries
first (last binding wins) and falls back to the underlying object. -/
theorem jsSpread_eq (l : List (String × JsValue)) :
    ∀ (m : JsObj) (k : String), jsSpread m l k = (jsLookup l k).or (m k) := by
  induction l with
  | nil => intro m k; simp [jsSpread, jsLookup, emptyObj, Option.or]
  | cons kv rest ih =>
      intro m k
      have hL : jsSpread m (kv :: rest) k = jsSpread (objSet m kv.1 kv.2) rest k := rfl
      have hR : jsLookup (kv :: rest) k = jsSpread (objSet emptyObj kv.1 kv.2) rest k := rfl
      rw [hL, hR, ih (objSet m kv.1 kv.2) k, ih (objSet emptyObj kv.1 kv.2) k]
      cases h : jsLookup rest k with
      | some v => simp [Option.or]
      | none =>
          by_cases hk : k = kv.1 <;> simp [Option.or, objSet, emptyObj, hk]

/-- Helper: looking up a key that does not occur yields nothing. -/
theorem jsLookup_not_mem (l : List (String × JsValue)) (k : String)
    (hk : k ∉ l.map Prod.fst) : jsLookup l k = none := by
  induction l with
  | nil => rfl
  | cons kv rest ih =>
      have hk1 : k ≠ kv.1 := fun h => hk (by simp [h])
      have hk2 : k ∉ rest.map Prod.fst := fun h => hk (by simp [h])
      have : jsLookup (kv :: rest) k = jsSpread (objSet emptyObj kv.1 kv.2) rest k := rfl
      rw [this, jsSpread_eq, ih hk2]
      simp [Option.or, objSet, emptyObj, hk1]

/-- Helper: in a duplicate-free entry list, lookup returns the entry's
value. -/
theorem jsLookup_mem_nodup (l : List (String × JsValue)) (k : String) (v : JsValue)
    (hnd : (l.map Prod.fst).Nodup) (hmem : (k, v) ∈ l) : jsLookup l k = some v := by
  induction l with
  | nil => cases hmem
  | cons kv rest ih =>
      have hstep : jsLookup (kv :: rest) k = jsSpread (objSet emptyObj kv.1 kv.2) rest k := rfl
      rcases List.mem_cons.mp hmem with hEq | hRest
      · have hk1 : kv.1 = k := by rw [← hEq]
        have hnotin : k ∉ rest.map Prod.fst := by
          have := (List.nodup_cons.mp hnd).1
          simpa [hk1] using this
        rw [hstep, jsSpread_eq, jsLookup_not_mem rest k hnotin]
        simp [Option.or, objSet, hk1, ← hEq]
      · rw [hstep, jsSpread_eq, ih (List.nodup_cons.mp hnd).2 hRest]
        simp [Option.or]

/-- Helper: lookup across a concatenation prefers the later list. -/
theorem jsLookup_append (l1 l2 : List (String × JsValue)) (k : String) :
    jsLookup (l1 ++ l2) k = (jsLookup l2 k).or (jsLookup l1 k) := by
  have h : jsLookup (l1 ++ l2) k = jsSpread (jsSpread emptyObj l1) l2 k := by
    simp [jsLookup, jsSpread, List.foldl_append]
  rw [h, jsSpread_eq]
  rfl

/-- Helper: only the equal string compares `SameValueZero`-equal to a
string. -/
theorem jsSameValueZero_str_iff (y : JsValue) (s : String) :
    jsSameValueZero y (JsValue.str s) = true ↔ y = JsValue.str s := by
  cases y <;> simp [jsSameValueZero]

/-- Helper: set-membership of the dedup check. -/
theorem dedupAux_seen_str (seen : List JsValue) (s : String) :
    seen.any (fun y => jsSameValueZero y (JsValue.str s)) = true ↔ JsValue.str s ∈ seen := by
  rw [List.any_eq_true]
  constructor
  · rintro ⟨y, hy, hz⟩
    exact (jsSameValueZero_str_iff y s).mp hz ▸ hy
  · intro h
    exact ⟨JsValue.str s, h, by simp [jsSameValueZero]⟩

/-- Helper: deduplication neither loses nor invents string elements. -/
theorem mem_dedupAux_str (s : String) :
    ∀ (xs seen : List JsValue),
      (JsValue.str s ∈ dedupAux seen xs ↔ (JsValue.str s ∈ xs ∧ JsValue.str s ∉ seen)) := by
  intro xs
  induction xs with
  | nil => intro seen; simp [dedupAux]
  | cons x rest ih =>
      intro seen
      by_cases hdup : seen.any (fun y => jsSameValueZero y x) = true
      · rw [show dedupAux seen (x :: rest) = dedupAux seen rest by simp [dedupAux, hdup]]
        rw [ih seen]
        constructor
        · rintro ⟨hm, hn⟩
          exact ⟨List.mem_cons_of_mem _ hm, hn⟩
        · rintro ⟨hm, hn⟩
          rcases List.mem_cons.mp hm with hEq | hm2
          · exfalso
            apply hn
            rw [← hEq] at hdup
            exact (dedupAux_seen_str seen s).mp hdup
          · exact ⟨hm2, hn⟩
      · rw [show dedupAux seen (x :: rest) = x :: dedupAux (x :: seen) rest by
          simp [dedupAux, hdup]]
        by_cases hxs : JsValue.str s = x
        · subst hxs
          have hns : JsValue.str s ∉ seen := by
            intro hmem
            exact hdup ((dedupAux_seen_str seen s).mpr hmem)
          simp [hns]
        · rw [List.mem_cons]
          rw [ih (x :: seen)]
          constructor
          · rintro (hEq | ⟨hm, hn⟩)
            · exact absurd hEq hxs
            · refine ⟨List.mem_cons_of_mem _ hm, fun hs2 => hn (List.mem_cons_of_mem _ hs2)⟩
          · rintro ⟨hm, hn⟩
            rcases List.mem_cons.mp hm with hEq | hm2
            · exact absurd hEq hxs
            · refine Or.inr ⟨hm2, fun hs2 => ?_⟩
              rcases List.mem_cons.mp hs2 with hEq | hs3
              · exact hxs hEq
              · exact hn hs3

/-- Helper: `[...new Set(xs)]` has the same string elements as `xs`. -/
theorem mem_jsSetDedup_str (s : String) (xs : List JsValue) :
    JsValue.str s ∈ jsSetDedup xs ↔ JsValue.str s ∈ xs := by
  simpa using mem_dedupAux_str s xs []

/-- C5 counterexample: the cache-directory redirection is *not*
unconditional — the object literal writes `cacheDir` before spreading
the user config, so a user config that defines its own `cacheDir` wins
over the synthesized OS-temp cache directory. -/
theorem augmentedViteConfig_cacheDir_cex :
    augmentedViteConfig cacheCexInputs "cacheDir" = some (JsValue.str "/proj/.vite-custom")
      ∧ augmentedViteConfig cacheCexInputs "cacheDir"
          ≠ some (JsValue.str cacheCexInputs.viteCacheDir) := by
  have h1 : augmentedViteConfig cacheCexInputs "cacheDir"
      = some (JsValue.str "/proj/.vite-custom") := by rfl
  refine ⟨h1, ?_⟩
  rw [h1]
  intro h
  injection h with h2
  injection h2 with h3
  exact absurd h3 (by decide)

/-- C5 (amended): in the synthesized dev-server config the user value
takes precedence over the synthesized one for every top-level key the
generator does not recompute (`plugins`, `resolve`, `server`), the
cache-directory redirection included: the synthesized cache dir applies
only when the user config defines no `cacheDir` of its own.  The merge
is additive: base plugins are prepended to the user's plugin array, the
`fs.allow` list holds exactly the default entries plus the user's, and
in the merged alias record the user's binding wins per key with the
fallback filling the gaps. -/
theorem augmentedViteConfig_merge (inp : AugmentedConfigInputs)
    (hnd : (inp.userConfig.map Prod.fst).Nodup) :
    (∀ kv ∈ inp.userConfig, kv.1 ≠ "plugins" → kv.1 ≠ "resolve" → kv.1 ≠ "server" →
        augmentedViteConfig inp kv.1 = some kv.2)
      ∧ ("cacheDir" ∉ inp.userConfig.map Prod.fst →
          augmentedViteConfig inp "cacheDir" = some (JsValue.str inp.viteCacheDir))
      ∧ (∀ ps, jsLookup inp.userConfig "plugins" = some (JsValue.arr ps) →
          augmentedViteConfig inp "plugins" = some (JsValue.arr (basePlugins inp ++ ps)))
      ∧ (∀ s, JsValue.str s ∈ allowList inp
          ↔ (s = inp.projectDir ∨ s = inp.parentDir ∨ JsValue.str s ∈ userAllowList inp))
      ∧ (asArrElems (userAliasVal inp) = none →
          ∀ k, jsLookup (asObjFields (some (mergedAlias inp))) k
            = (jsLookup (asObjFields (userAliasVal inp)) k).or
                (jsLookup (fallbackAliasFields inp) k)) := by
  refine ⟨?_, ?_, ?_, ?_, ?_⟩
  · intro kv hmem hp hr hs
    rw [show augmentedViteConfig inp kv.1
        = jsSpread (jsSpread (objSet emptyObj "cacheDir" (JsValue.str inp.viteCacheDir))
            inp.userConfig)
          [("plugins", JsValue.arr (pluginsList inp)),
           ("resolve", JsValue.obj (userResolveFields inp ++ [("alias", mergedAlias inp)])),
           ("server", JsValue.obj (userServerFields inp
              ++ [("fs", JsValue.obj (userFsFields inp
                    ++ [("allow", JsValue.arr (allowList inp))]))]))] kv.1 from rfl]
    rw [jsSpread_eq, jsSpread_eq]
    rw [jsLookup_mem_nodup inp.userConfig kv.1 kv.2 hnd hmem]
    have hnone : jsLookup
        [("plugins", JsValue.arr (pluginsList inp)),
         ("resolve", JsValue.obj (userResolveFields inp ++ [("alias", mergedAlias inp)])),
         ("server", JsValue.obj (userServerFields inp
            ++ [("fs", JsValue.obj (userFsFields inp
                  ++ [("allow", JsValue.arr (allowList inp))]))]))] kv.1 = none := by
      apply jsLookup_not_mem
      simp [hp, hr, hs]
    rw [hnone]
    rfl
  · intro hno
    rw [show augmentedViteConfig inp "cacheDir"
        = jsSpread (jsSpread (objSet emptyObj "cacheDir" (JsValue.str inp.viteCacheDir))
            inp.userConfig)
          [("plugins", JsValue.arr (pluginsList inp)),
           ("resolve", JsValue.obj (userResolveFields inp ++ [("alias", mergedAlias inp)])),
           ("server", JsValue.obj (userServerFields inp
              ++ [("fs", JsValue.obj (userFsFields inp
                    ++ [("allow", JsValue.arr (allowList inp))]))]))] "cacheDir" from rfl]
    rw [jsSpread_eq, jsSpread_eq]
    rw [jsLookup_not_mem inp.userConfig "cacheDir" hno]
    have hnone : jsLookup
        [("plugins", JsValue.arr (pluginsList inp)),
         ("resolve", JsValue.obj (userResolveFields inp ++ [("alias", mergedAlias inp)])),
         ("server", JsValue.obj (userServerFields inp
            ++ [("fs", JsValue.obj (userFsFields inp
                  ++ [("allow", JsValue.arr (allowList inp))]))]))] "cacheDir" = none := by
      apply jsLookup_not_mem
      simp
    rw [hnone]
    rfl
  · intro ps hps
    rw [show augmentedViteConfig inp "plugins"
        = jsSpread (jsSpread (objSet emptyObj "cacheDir" (JsValue.str inp.viteCacheDir))
            inp.userConfig)
          [("plugins", JsValue.arr (pluginsList inp)),
           ("resolve", JsValue.obj (userResolveFields inp ++ [("alias", mergedAlias inp)])),
           ("server", JsValue.obj (userServerFields inp
              ++ [("fs", JsValue.obj (userFsFields inp
                    ++ [("allow", JsValue.arr (allowList inp))]))]))] "plugins" from rfl]
    rw [jsSpread_eq]
    have hsome : jsLookup
        [("plugins", JsValue.arr (pluginsList inp)),
         ("resolve", JsValue.obj (userResolveFields inp ++ [("alias", mergedAlias inp)])),
         ("server", JsValue.obj (userServerFields inp
            ++ [("fs", JsValue.obj (userFsFields inp
                  ++ [("allow", JsValue.arr (allowList inp))]))]))] "plugins"
        = some (JsValue.arr (pluginsList inp)) := by
      simp [jsLookup, jsSpread, objSet, emptyObj]
    rw [hsome]
    have hpl : pluginsList inp = basePlugins inp ++ ps := by
      simp [pluginsList, hps, asArrElems]
    rw [hpl]
    rfl
  · intro s
    rw [show allowList inp = jsSetDedup (defaultFsAllow inp ++ userAllowList inp) from rfl]
    rw [mem_jsSetDedup_str]
    simp [defaultFsAllow, List.mem_append, List.mem_cons, eq_comm]
  · intro hal k
    rw [show mergedAlias inp
        = JsValue.obj (fallbackAliasFields inp ++ asObjFields (userAliasVal inp)) by
      simp [mergedAlias, hal]]
    rw [show asObjFields (some (JsValue.obj
        (fallbackAliasFields inp ++ asObjFields (userAliasVal inp))))
        = fallbackAliasFields inp ++ asObjFields (userAliasVal inp) from rfl]
    exact jsLookup_append _ _ k

/-- Witness for `augmentedViteConfig_merge` at a concrete user config
exercising every conjunct. -/
theorem augmentedViteConfig_merge_witness :
    augmentedViteConfig
        { projectDir := "/proj", parentDir := "/", viteCacheDir := "/tmp/cache",
          fallbackAliases := [("react", "/own/react"), ("react-dom", "/own/react-dom")],
          shouldInjectReactPlugin := false,
          userConfig :=
            [("plugins", JsValue.arr [JsValue.ref 7]), ("base", JsValue.str "/app/"),
             ("server", JsValue.obj [("fs", JsValue.obj
                [("allow", JsValue.arr [JsValue.str "/extra"])])]),
             ("resolve", JsValue.obj [("alias", JsValue.obj
                [("react", JsValue.str "/user/react")])])] }
        "base" = some (JsValue.str "/app/")
      ∧ augmentedViteConfig
          { projectDir := "/proj", parentDir := "/", viteCacheDir := "/tmp/cache",
            fallbackAliases := [("react", "/own/react"), ("react-dom", "/own/react-dom")],
            shouldInjectReactPlugin := false,
            userConfig :=
              [("plugins", JsValue.arr [JsValue.ref 7]), ("base", JsValue.str "/app/"),
               ("server", JsValue.obj [("fs", JsValue.obj
                  [("allow", JsValue.arr [JsValue.str "/extra"])])]),
               ("resolve", JsValue.obj [("alias", JsValue.obj
                  [("react", JsValue.str "/user/react")])])] }
          "cacheDir" = some (JsValue.str "/tmp/cache")
      ∧ augmentedViteConfig
          { projectDir := "/proj", parentDir := "/", viteCacheDir := "/tmp/cache",
            fallbackAliases := [("react", "/own/react"), ("react-dom", "/own/react-dom")],
            shouldInjectReactPlugin := false,
            userConfig :=
              [("plugins", JsValue.arr [JsValue.ref 7]), ("base", JsValue.str "/app/"),
               ("server", JsValue.obj [("fs", JsValue.obj
                  [("allow", JsValue.arr [JsValue.str "/extra"])])]),
               ("resolve", JsValue.obj [("alias", JsValue.obj
                  [("react", JsValue.str "/user/react")])])] }
          "plugins" = some (JsValue.arr (basePlugins
            { projectDir := "/proj", parentDir := "/", viteCacheDir := "/tmp/cache",
              fallbackAliases := [("react", "/own/react"), ("react-dom", "/own/react-dom")],
              shouldInjectReactPlugin := false,
              userConfig :=
                [("plugins", JsValue.arr [JsValue.ref 7]), ("base", JsValue.str "/app/"),
                 ("server", JsValue.obj [("fs", JsValue.obj
                    [("allow", JsValue.arr [JsValue.str "/extra"])])]),
                 ("resolve", JsValue.obj [("alias", JsValue.obj
                    [("react", JsValue.str "/user/react")])])] } ++ [JsValue.ref 7]))
      ∧ (JsValue.str "/extra" ∈ allowList
          { projectDir := "/proj", parentDir := "/", viteCacheDir := "/tmp/cache",
            fallbackAliases := [("react", "/own/react"), ("react-dom", "/own/react-dom")],
            shouldInjectReactPlugin := false,
            userConfig :=
              [("plugins", JsValue.arr [JsValue.ref 7]), ("base", JsValue.str "/app/"),
               ("server", JsValue.obj [("fs", JsValue.obj
                  [("allow", JsValue.arr [JsValue.str "/extra"])])]),
               ("resolve", JsValue.obj [("alias", JsValue.obj
                  [("react", JsValue.str "/user/react")])])] })
      ∧ jsLookup (asObjFields (some (mergedAlias
          { projectDir := "/proj", parentDir := "/", viteCacheDir := "/tmp/cache",
            fallbackAliases := [("react", "/own/react"), ("react-dom", "/own/react-dom")],
            shouldInjectReactPlugin := false,
            userConfig :=
              [("plugins", JsValue.arr [JsValue.ref 7]), ("base", JsValue.str "/app/"),
               ("server", JsValue.obj [("fs", JsValue.obj
                  [("allow", JsValue.arr [JsValue.str "/extra"])])]),
               ("resolve", JsValue.obj [("alias", JsValue.obj
                  [("react", JsValue.str "/user/react")])])] }))) "react"
          = some (JsValue.str "/user/react") := by
  have h := augmentedViteConfig_merge
    { projectDir := "/proj", parentDir := "/", viteCacheDir := "/tmp/cache",
      fallbackAliases := [("react", "/own/react"), ("react-dom", "/own/react-dom")],
      shouldInjectReactPlugin := false,
      userConfig :=
        [("plugins", JsValue.arr [JsValue.ref 7]), ("base", JsValue.str "/app/"),
         ("server", JsValue.obj [("fs", JsValue.obj
            [("allow", JsValue.arr [JsValue.str "/extra"])])]),
         ("resolve", JsValue.obj [("alias", JsValue.obj
            [("react", JsValue.str "/user/react")])])] }
    (by simp)
  refine ⟨?_, ?_, ?_, ?_, ?_⟩
  · exact h.1 ("base", JsValue.str "/app/")
      (List.mem_cons_of_mem _ (List.mem_cons_self _ _))
      (by decide) (by decide) (by decide)
  · exact h.2.1 (by simp)
  · exact h.2.2.1 [JsValue.ref 7] (by rfl)
  · exact (h.2.2.2.1 "/extra").mpr (Or.inr (Or.inr (List.mem_cons_self _ _)))
  · exact (h.2.2.2.2 rfl "react").trans rfl

/-- Helper: the entry scan returns true exactly when the entry list
holds a TypeScript-source file directly, or a non-skipped directory
below which one is reachable — assuming the equivalence already holds
for each entry one level down. -/
theorem scanEntries_iff (entries : List FsNode) (d : Nat)
    (hrec : ∀ e ∈ entries,
      (hasTypeScriptSource e (d + 1) = true ↔ ReachableTsFile e (d + 1))) :
    scanEntries entries d = true ↔
      ((∃ fn, FsNode.file fn ∈ entries ∧ isTsSourceName fn = true)
        ∨ (∃ nm r ch, FsNode.dir nm r ch ∈ entries ∧ nm ≠ "node_modules" ∧ nm ≠ ".git"
            ∧ ReachableTsFile (FsNode.dir nm r ch) (d + 1))) := by
  induction entries with
  | nil => simp [scanEntries]
  | cons e rest ih =>
      have hrest := ih (fun x hx => hrec x (List.mem_cons_of_mem e hx))
      cases e with
      | dir nm r ch =>
          by_cases hskip : nm = "node_modules" ∨ nm = ".git"
          · rw [show scanEntries (FsNode.dir nm r ch :: rest) d = scanEntries rest d by
              simp [scanEntries, hskip]]
            rw [hrest]
            constructor
            · rintro (⟨fn, hm, ht⟩ | ⟨nm2, r2, ch2, hm, h1, h2, hr⟩)
              · exact Or.inl ⟨fn, List.mem_cons_of_mem _ hm, ht⟩
              · exact Or.inr ⟨nm2, r2, ch2, List.mem_cons_of_mem _ hm, h1, h2, hr⟩
            · rintro (⟨fn, hm, ht⟩ | ⟨nm2, r2, ch2, hm, h1, h2, hr⟩)
              · rcases List.mem_cons.mp hm with hEq | hm2
                · cases hEq
                · exact Or.inl ⟨fn, hm2, ht⟩
              · rcases List.mem_cons.mp hm with hEq | hm2
                · rcases hskip with rfl | rfl <;>
                    (injection hEq with e1 e2 e3; subst e1; simp at h1 h2)
                · exact Or.inr ⟨nm2, r2, ch2, hm2, h1, h2, hr⟩
          · have hhead := hrec (FsNode.dir nm r ch) (List.mem_cons_self _ _)
            have hn1 : nm ≠ "node_modules" := fun h => hskip (Or.inl h)
            have hn2 : nm ≠ ".git" := fun h => hskip (Or.inr h)
            rw [show scanEntries (FsNode.dir nm r ch :: rest) d
                = (hasTypeScriptSource (FsNode.dir nm r ch) (d + 1) || scanEntries rest d) by
              simp [scanEntries, hskip]]
            rw [Bool.or_eq_true, hrest, hhead]
            constructor
            · rintro (hr | (⟨fn, hm, ht⟩ | ⟨nm2, r2, ch2, hm, h1, h2, hr⟩))
              · exact Or.inr ⟨nm, r, ch, List.mem_cons_self _ _, hn1, hn2, hr⟩
              · exact Or.inl ⟨fn, List.mem_cons_of_mem _ hm, ht⟩
              · exact Or.inr ⟨nm2, r2, ch2, List.mem_cons_of_mem _ hm, h1, h2, hr⟩
            · rintro (⟨fn, hm, ht⟩ | ⟨nm2, r2, ch2, hm, h1, h2, hr⟩)
              · rcases List.mem_cons.mp hm with hEq | hm2
                · cases hEq
                · exact Or.inr (Or.inl ⟨fn, hm2, ht⟩)
              · rcases List.mem_cons.mp hm with hEq | hm2
                · injection hEq with e1 e2 e3
                  subst e1; subst e2; subst e3
                  exact Or.inl hr
                · exact Or.inr (Or.inr ⟨nm2, r2, ch2, hm2, h1, h2, hr⟩)
      | file fn =>
          by_cases hts : isTsSourceName fn = true
          · rw [show scanEntries (FsNode.file fn :: rest) d = true by simp [scanEntries, hts]]
            simp only [true_iff]
            exact Or.inl ⟨fn, List.mem_cons_self _ _, hts⟩
          · rw [show scanEntries (FsNode.file fn :: rest) d = scanEntries rest d by
              simp [scanEntries, hts]]
            rw [hrest]
            constructor
            · rintro (⟨fn2, hm, ht⟩ | ⟨nm2, r2, ch2, hm, h1, h2, hr⟩)
              · exact Or.inl ⟨fn2, List.mem_cons_of_mem _ hm, ht⟩
              · exact Or.inr ⟨nm2, r2, ch2, List.mem_cons_of_mem _ hm, h1, h2, hr⟩
            · rintro (⟨fn2, hm, ht⟩ | ⟨nm2, r2, ch2, hm, h1, h2, hr⟩)
              · rcases List.mem_cons.mp hm with hEq | hm2
                · injection hEq with e1
                  subst e1
                  exact absurd ht hts
                · exact Or.inl ⟨fn2, hm2, ht⟩
              · rcases List.mem_cons.mp hm with hEq | hm2
                · cases hEq
                · exact Or.inr ⟨nm2, r2, ch2, hm2, h1, h2, hr⟩
      | special nm =>
          rw [show scanEntries (FsNode.special nm :: rest) d = scanEntries rest d by
            simp [scanEntries]]
          rw [hrest]
          constructor
          · rintro (⟨fn2, hm, ht⟩ | ⟨nm2, r2, ch2, hm, h1, h2, hr⟩)
            · exact Or.inl ⟨fn2, List.mem_cons_of_mem _ hm, ht⟩
            · exact Or.inr ⟨nm2, r2, ch2, List.mem_cons_of_mem _ hm, h1, h2, hr⟩
          · rintro (⟨fn2, hm, ht⟩ | ⟨nm2, r2, ch2, hm, h1, h2, hr⟩)
            · rcases List.mem_cons.mp hm with hEq | hm2
              · cases hEq
              · exact Or.inl ⟨fn2, hm2, ht⟩
            · rcases List.mem_cons.mp hm with hEq | hm2
              · cases hEq
              · exact Or.inr ⟨nm2, r2, ch2, hm2, h1, h2, hr⟩

/-- Helper: the scan and the reachability predicate agree on every tree,
by strong induction on the tree size. -/
theorem hasTS_iff_aux : ∀ (n : Nat) (node : FsNode), sizeOf node ≤ n →
    ∀ depth, (hasTypeScriptSource node depth = true ↔ ReachableTsFile node depth) := by
  intro n
  induction n with
  | zero =>
      intro node hsz
      exfalso
      cases node <;> simp at hsz
  | succ n ih =>
      intro node hsz depth
      cases node with
      | file nm =>
          constructor
          · intro h; simp [hasTypeScriptSource] at h
          · intro h; cases h
      | special nm =>
          constructor
          · intro h; simp [hasTypeScriptSource] at h
          · intro h; cases h
      | dir nm readable children =>
          by_cases hd : 5 < depth
          · constructor
            · intro h; simp [hasTypeScriptSource, hd] at h
            · intro h; cases h <;> omega
          · cases readable with
            | false =>
                constructor
                · intro h; simp [hasTypeScriptSource, hd] at h
                · intro h; cases h
            | true =>
                have hrec : ∀ e ∈ children,
                    (hasTypeScriptSource e (depth + 1) = true ↔ ReachableTsFile e (depth + 1)) := by
                  intro e he
                  have h1 : sizeOf e < sizeOf children := List.sizeOf_lt_of_mem he
                  have h2 : sizeOf children < sizeOf (FsNode.dir nm true children) := by
                    simp
                  exact ih e (by omega) (depth + 1)
                have hfun : hasTypeScriptSource (FsNode.dir nm true children) depth
                    = scanEntries children depth := by
                  simp [hasTypeScriptSource, hd]
                rw [hfun, scanEntries_iff children depth hrec]
                constructor
                · rintro (⟨fn, hm, ht⟩ | ⟨nm2, r2, ch2, hm, h1, h2, hr⟩)
                  · exact ReachableTsFile.here (by omega) hm ht
                  · exact ReachableTsFile.deeper (by omega) hm h1 h2 hr
                · intro h
                  cases h with
                  | here hdle hm ht => exact Or.inl ⟨_, hm, ht⟩
                  | deeper hdle hm h1 h2 hr => exact Or.inr ⟨_, _, _, hm, h1, h2, hr⟩

/-- C10: `hasTypeScriptSource` is total on every directory tree (it is a
Lean function, so it terminates and throws nothing), recursion is cut
off beyond depth 5, an unreadable directory yields `false`, and it
returns `true` exactly when a TypeScript-source file (`.ts`/`.tsx` but
not `.d.ts`) is reachable within those bounds, never descending into
`node_modules` or `.git`. -/
theorem hasTypeScriptSource_spec (node : FsNode) (depth : Nat) :
    (5 < depth → hasTypeScriptSource node depth = false)
      ∧ (∀ nm ch, node = FsNode.dir nm false ch → hasTypeScriptSource node depth = false)
      ∧ (hasTypeScriptSource node depth = true ↔ ReachableTsFile node depth) := by
  refine ⟨?_, ?_, hasTS_iff_aux (sizeOf node) node le_rfl depth⟩
  · intro hd
    cases node <;> simp [hasTypeScriptSource, hd]
  · rintro nm ch rfl
    by_cases hd : 5 < depth <;> simp [hasTypeScriptSource, hd]

/-- Witness for `hasTypeScriptSource_spec` on concrete trees: the depth
cap, an unreadable root, and the equivalence in both directions (a
`.tsx` file found, nothing found past `node_modules`). -/
theorem hasTypeScriptSource_spec_witness :
    hasTypeScriptSource (FsNode.dir "root" true [FsNode.file "app.tsx"]) 6 = false
      ∧ hasTypeScriptSource (FsNode.dir "root" false [FsNode.file "app.tsx"]) 0 = false
      ∧ ReachableTsFile (FsNode.dir "root" true [FsNode.file "app.tsx"]) 0
      ∧ hasTypeScriptSource
          (FsNode.dir "root" true [FsNode.dir "node_modules" true [FsNode.file "x.ts"]]) 0
          = false := by
  refine ⟨(hasTypeScriptSource_spec _ 6).1 (by omega), ?_, ?_, ?_⟩
  · exact (hasTypeScriptSource_spec _ 0).2.1 "root" [FsNode.file "app.tsx"] rfl
  · refine (hasTypeScriptSource_spec _ 0).2.2.mp ?_
    simp [hasTypeScriptSource, scanEntries, isTsSourceName, strEndsWith]
    decide
  · simp [hasTypeScriptSource, scanEntries]

/-- C8: window-title resolution.  A project whose `index.html` titles
itself `Hello` and which has no package.json-derived or override title
resolves to `Hello`; the `--title` flag always wins; and without the
flag the auto-detection sources apply in order `windowd.title`,
`displayName`, `name`, HTML `<title>`, directory basename. -/
theorem title_resolution :
    (∀ base, resolvedTitle none none (some helloHtml) base = "Hello")
      ∧ (∀ t pkg indexHtml base, resolvedTitle (some t) pkg indexHtml base = t)
      ∧ (∀ pkg indexHtml base w, pkg.windowdTitle = some w → w ≠ "" →
          resolvedTitle none (some pkg) indexHtml base = w)
      ∧ (∀ pkg indexHtml base d, jsTruthy pkg.windowdTitle = none →
          pkg.displayName = some d → d ≠ "" →
          resolvedTitle none (some pkg) indexHtml base = d)
      ∧ (∀ pkg indexHtml base n, jsTruthy pkg.windowdTitle = none →
          jsTruthy pkg.displayName = none → pkg.name = some n → n ≠ "" →
          resolvedTitle none (some pkg) indexHtml base = n)
      ∧ (∀ pkg base, (pkg = none ∨ ∃ p, pkg = some p ∧ jsTruthy p.windowdTitle = none
            ∧ jsTruthy p.displayName = none ∧ jsTruthy p.name = none) →
          resolvedTitle none pkg none base = base) := by
  refine ⟨fun base => rfl, fun t pkg indexHtml base => rfl, ?_, ?_, ?_, ?_⟩
  · intro pkg indexHtml base w hw hne
    have hww : jsTruthy pkg.windowdTitle = some w := by simp [jsTruthy, hw, hne]
    simp [resolvedTitle, getTitle, hww]
  · intro pkg indexHtml base d hwt hd hne
    have hdd : jsTruthy pkg.displayName = some d := by simp [jsTruthy, hd, hne]
    simp [resolvedTitle, getTitle, hwt, hdd]
  · intro pkg indexHtml base n hwt hdt hn hne
    have hnn : jsTruthy pkg.name = some n := by simp [jsTruthy, hn, hne]
    simp [resolvedTitle, getTitle, hwt, hdt, hnn]
  · intro pkg base hcase
    rcases hcase with rfl | ⟨p, rfl, h1, h2, h3⟩
    · rfl
    · simp [resolvedTitle, getTitle, h1, h2, h3, htmlOrBase]

/-- Witness for `title_resolution` at concrete projects: the Hello
project, a forced `--title`, and each auto-detection source. -/
theorem title_resolution_witness :
    resolvedTitle none none (some helloHtml) "proj" = "Hello"
      ∧ resolvedTitle (some "Forced") none (some helloHtml) "proj" = "Forced"
      ∧ resolvedTitle none
          (some { windowdTitle := some "W", displayName := some "D", name := some "N" })
          none "proj" = "W"
      ∧ resolvedTitle none
          (some { windowdTitle := none, displayName := some "D", name := some "N" })
          none "proj" = "D"
      ∧ resolvedTitle none
          (some { windowdTitle := some "", displayName := none, name := some "N" })
          none "proj" = "N"
      ∧ resolvedTitle none
          (some { windowdTitle := none, displayName := some "", name := none })
          none "proj" = "proj" :=
  ⟨title_resolution.1 "proj",
   title_resolution.2.1 "Forced" none (some helloHtml) "proj",
   title_resolution.2.2.1 _ none "proj" "W" rfl (by decide),
   title_resolution.2.2.2.1 _ none "proj" "D" rfl rfl (by decide),
   title_resolution.2.2.2.2.1 _ none "proj" "N" rfl rfl rfl (by decide),
   title_resolution.2.2.2.2.2 _ "proj" (Or.inr ⟨_, rfl, rfl, rfl, rfl⟩)⟩

/-- Helper: the no-geometry-value property is closed under dropping the
first token. -/
theorem noGeomValue_tail {x : String} {xs : List String}
    (h : noGeomValue (x :: xs) = true) : noGeomValue xs = true := by
  have := (Bool.and_eq_true _ _).mp h
  exact this.2

/-- Helper: the `parseArgs` scan never writes the width or height fields
while scanning a vector in which no value follows a geometry flag. -/
theorem parseLoop_geomDefaults (argv : List String) (r : PartialArgs) :
    noGeomValue argv = true →
    (parseLoop argv r).width = r.width ∧ (parseLoop argv r).height = r.height := by
  induction argv, r using parseLoop.induct with
  | case1 r => intro _; simp [parseLoop]
  | case2 a rest r ha ih =>
      intro h
      have htail := noGeomValue_tail h
      rcases ha with rfl | rfl <;> cases rest <;> simpa [parseLoop] using ih htail
  | case3 a rest r h1 ha ih =>
      intro h
      have htail := noGeomValue_tail h
      rcases ha with rfl | rfl <;> cases rest <;> simpa [parseLoop] using ih htail
  | case4 a rest r h1 h2 ha ih =>
      intro h
      have htail := noGeomValue_tail h
      rcases ha with rfl | rfl <;> cases rest <;> simpa [parseLoop] using ih htail
  | case5 a rest r h1 h2 h3 ha ih =>
      intro h
      have htail := noGeomValue_tail h
      rcases ha with rfl | rfl <;> cases rest <;> simpa [parseLoop] using ih htail
  | case6 a r h1 h2 h3 h4 ha v rest2 hv ih =>
      intro h
      exfalso
      rcases ha with rfl | rfl <;> simp [noGeomValue, geomFlag, hv] at h
  | case7 a r h1 h2 h3 h4 ha v rest2 hv ih =>
      intro h
      rcases ha with rfl | rfl <;> simpa [parseLoop, hv] using ih (noGeomValue_tail h)
  | case8 a r h1 h2 h3 h4 ha ih =>
      intro h
      rcases ha with rfl | rfl <;> simp [parseLoop]
  | case9 a r h1 h2 h3 h4 h5 ha v rest2 hv ih =>
      intro h
      exfalso
      rcases ha with rfl | rfl <;> simp [noGeomValue, geomFlag, hv] at h
  | case10 a r h1 h2 h3 h4 h5 ha v rest2 hv ih =>
      intro h
      rcases ha with rfl | rfl <;> simpa [parseLoop, hv] using ih (noGeomValue_tail h)
  | case11 a r h1 h2 h3 h4 h5 ha ih =>
      intro h
      rcases ha with rfl | rfl <;> simp [parseLoop]
  | case12 a r h1 h2 h3 h4 h5 h6 ha v rest2 hv ih =>
      intro h
      rcases ha with rfl | rfl <;>
        simpa [parseLoop, hv] using ih (noGeomValue_tail (noGeomValue_tail h))
  | case13 a r h1 h2 h3 h4 h5 h6 ha v rest2 hv ih =>
      intro h
      rcases ha with rfl | rfl <;> simpa [parseLoop, hv] using ih (noGeomValue_tail h)
  | case14 a r h1 h2 h3 h4 h5 h6 ha ih =>
      intro h
      rcases ha with rfl | rfl <;> simp [parseLoop]
  | case15 r v rest2 hv h1 h2 h3 h4 h5 h6 h7 ih =>
      intro h
      simpa [parseLoop, hv] using ih (noGeomValue_tail (noGeomValue_tail h))
  | case16 r v rest2 hv h1 h2 h3 h4 h5 h6 h7 ih =>
      intro h
      simpa [parseLoop, hv] using ih (noGeomValue_tail h)
  | case17 r h1 h2 h3 h4 h5 h6 h7 ih =>
      intro h
      simp [parseLoop]
  | case18 r v rest2 hv h1 h2 h3 h4 h5 h6 h7 h8 ih =>
      intro h
      simpa [parseLoop, hv] using ih (noGeomValue_tail (noGeomValue_tail h))
  | case19 r v rest2 hv h1 h2 h3 h4 h5 h6 h7 h8 ih =>
      intro h
      simpa [parseLoop, hv] using ih (noGeomValue_tail h)
  | case20 r h1 h2 h3 h4 h5 h6 h7 h8 ih =>
      intro h
      simp [parseLoop]
  | case21 a rest r h1 h2 h3 h4 h5 h6 h7 h8 h9 ih =>
      intro h
      have htail := noGeomValue_tail h
      cases rest with
      | nil =>
          simp only [parseLoop]
          rw [if_neg h1, if_neg h2, if_neg h3, if_neg h4, if_neg h5, if_neg h6, if_neg h7,
            if_neg h8, if_neg h9]
          simp [parseLoop]
      | cons x xs =>
          simp only [parseLoop]
          rw [if_neg h1, if_neg h2, if_neg h3, if_neg h4, if_neg h5, if_neg h6, if_neg h7,
            if_neg h8, if_neg h9]
          exact ih htail

/-- C9: for every argument vector in which no value follows a geometry
flag (the flag is last, or the following token is empty so the source's
truthiness guard rejects it), `parseArgs` returns the default geometry
1280×800; and when `--width`/`--height` are given with values, the
parsed values are returned instead. -/
theorem parseArgs_geometry :
    (∀ argv, noGeomValue argv = true →
        (parseArgs argv).width = some 1280 ∧ (parseArgs argv).height = some 800)
      ∧ (∀ ws hs w h, ws ≠ "" → hs ≠ "" →
          jsParseInt ws = some w → jsParseInt hs = some h →
          (parseArgs ["--width", ws, "--height", hs]).width = some w
            ∧ (parseArgs ["--width", ws, "--height", hs]).height = some h) := by
  constructor
  · intro argv h
    have hw := (parseLoop_geomDefaults argv emptyPartialArgs h).1
    have hh := (parseLoop_geomDefaults argv emptyPartialArgs h).2
    simp [emptyPartialArgs] at hw hh
    constructor
    · simp [parseArgs, emptyPartialArgs, hw]
    · simp [parseArgs, emptyPartialArgs, hh]
  · intro ws hs w h hws hhs hw hh
    constructor <;> simp [parseArgs, parseLoop, hws, hhs, hw, hh, emptyPartialArgs]

/-- Witness for `parseArgs_geometry`: `--width` with no following token
keeps the 1280×800 default, and `--width 800 --height 600` parses. -/
theorem parseArgs_geometry_witness :
    ((parseArgs ["--width"]).width = some 1280 ∧ (parseArgs ["--width"]).height = some 800)
      ∧ ((parseArgs ["--width", "800", "--height", "600"]).width = some 800
          ∧ (parseArgs ["--width", "800", "--height", "600"]).height = some 600) :=
  ⟨parseArgs_geometry.1 ["--width"] (by decide),
   parseArgs_geometry.2 "800" "600" 800 600 (by decide) (by decide) (by decide) (by decide)⟩

/-- C7 counterexample: an `EBUSY` failure while deleting the host bundle
directory is swallowed *silently* — `cleanupTempDir` prints no warning
line at all for the busy/not-empty/permission-denied codes, contrary to
the claim that every such failure is downgraded to a logged warning. -/
theorem cleanupTempDir_ebusy_cex :
    cleanupTempDir (RmOutcome.err "EBUSY") "host" = [] := by rfl

/-- C7 (amended): the teardown routine never raises — deletion failures
with code `EBUSY`/`EPERM`/`ENOTEMPTY` are silently ignored, any other
deletion failure is downgraded to exactly one logged warning line, and
in every case the open-window phase's own outcome (success included)
passes through the `finally` block unchanged. -/
theorem cleanupTempDir_never_raises (race : PhaseOutcome)
    (rmHost rmProfile : RmOutcome) (code label : String) :
    (openWindowFinally race rmHost rmProfile).1 = race
      ∧ cleanupTempDir (RmOutcome.err code) label
          = (if code = "EBUSY" ∨ code = "EPERM" ∨ code = "ENOTEMPTY" then []
             else ["  warning: failed to remove " ++ label ++ " temp dir: " ++ code])
      ∧ cleanupTempDir RmOutcome.ok label = [] := by
  exact ⟨rfl, rfl, rfl⟩

end Windowd
